import Mathlib

/-!
# Verification of the ISO 8601 duration serde codec

Shallow embedding of the two pure functions in `src/lib.rs` of the
`iso8601-duration-serde` crate:

* `serialize`   : `time::Duration` → ISO 8601 component record (the encoder,
  up to the delegated string printing, which is out of scope per the spec);
* `deserialize` : ISO 8601 component record → `time::Duration` (the decoder,
  after the delegated string parsing).

Modelling conventions:

* Rust `i64` / `i32` values are Lean `ℤ`.  Where the source performs `i64`
  arithmetic that can overflow (the seconds accumulation in the decoder),
  the embedding applies an explicit two's-complement wrap `wrap64` after
  every operation, matching release-mode Rust semantics.
* Rust `f32` / `f64` values are modelled as exact rationals `ℚ`; the float
  operations used by the source (`fract`, truncation, `+`, `*`, `/` on
  values in the ranges exercised here) are modelled exactly.
* Rust float→integer `as` casts saturate at the target bounds after
  truncation toward zero; `satI64` / `satI32` model this.
* Rust `%` and `/` on integers are truncating: `Int.tmod` / `Int.tdiv`.
* `time::Duration::new` (from the `time` crate) normalises its two
  arguments; its `checked_add ... expect` can panic, modelled by `Option`
  (`none` = panic).  The tests of the crate pin its normalisation:
  both components end up agreeing in sign with `|nanos| < 10^9`.
-/

namespace Iso8601DurationSerde

/-- Nanoseconds per second, `Nanosecond::per_t(Second)`. -/
def NANOS_PER_SECOND : ℤ := 1000000000

/-- Seconds per day, `Second::per_t(Day)`. -/
def SECONDS_PER_DAY : ℤ := 86400

/-- Seconds per hour, `Second::per_t(Hour)`. -/
def SECONDS_PER_HOUR : ℤ := 3600

/-- Seconds per minute, `Second::per_t(Minute)`. -/
def SECONDS_PER_MINUTE : ℤ := 60

/-- Smallest `i64` value. -/
def I64_MIN : ℤ := -(2 ^ 63)

/-- Largest `i64` value. -/
def I64_MAX : ℤ := 2 ^ 63 - 1

/-- Smallest `i32` value. -/
def I32_MIN : ℤ := -(2 ^ 31)

/-- Largest `i32` value. -/
def I32_MAX : ℤ := 2 ^ 31 - 1

/-- Truncation toward zero of a rational, the semantics of Rust
`f32::trunc` and of the integral part taken by `as i64` casts
(the quotient of numerator by denominator, rounded toward zero). -/
def qtrunc (x : ℚ) : ℤ := x.num.tdiv (x.den : ℤ)

/-- Fractional part in the Rust `f32::fract` sense:
`x.fract() = x - x.trunc()`, so it carries the sign of `x`. -/
def qfract (x : ℚ) : ℚ := x - (qtrunc x : ℚ)

/-- Fuel-based floor of the base-2 logarithm of a natural number,
structurally recursive so that concrete evaluations reduce in the kernel;
agrees with `Nat.log2` (see `natLog2_eq`). -/
def natLog2Aux : ℕ → ℕ → ℕ
  | 0, _ => 0
  | fuel + 1, n => if 2 ≤ n then natLog2Aux fuel (n / 2) + 1 else 0

/-- Floor of the base-2 logarithm of a natural number. -/
def natLog2 (n : ℕ) : ℕ := natLog2Aux n n

/-- Floor of the base-2 logarithm of a positive rational. -/
def qlog2 (x : ℚ) : ℤ :=
  let k0 : ℤ := (natLog2 x.num.natAbs : ℤ) - (natLog2 x.den : ℤ)
  if (2 : ℚ) ^ k0 ≤ x then k0 else k0 - 1

/-- IEEE 754 round-to-nearest, ties-to-even, to a binary floating-point
format with `p` significand bits: the magnitude is scaled into
`[2^(p-1), 2^p)`, rounded to an integer significand (ties to the even
neighbour), and scaled back.  Normal range only — no overflow, subnormal
or NaN handling; every value narrowed in this development is either zero
or in the normal range of `f32`/`f64`. -/
def fround (p : ℕ) (x : ℚ) : ℚ :=
  if x = 0 then 0
  else
    let e : ℤ := qlog2 |x| - ((p : ℤ) - 1)
    let m : ℚ := |x| / (2 : ℚ) ^ e
    let q : ℤ := qtrunc m
    let q2 : ℤ :=
      if m - (q : ℚ) < 1 / 2 then q
      else if (1 : ℚ) / 2 < m - (q : ℚ) then q + 1
      else if q % 2 = 0 then q else q + 1
    (if 0 < x then 1 else -1) * (q2 : ℚ) * (2 : ℚ) ^ e

/-- Rounding of a real value to the nearest `f32` (24 significand bits). -/
def roundF32 (x : ℚ) : ℚ := fround 24 x

/-- Rounding of a real value to the nearest `f64` (53 significand bits). -/
def roundF64 (x : ℚ) : ℚ := fround 53 x

/-- Rust `as i64` cast from a float: truncate toward zero, then saturate
at the `i64` bounds. -/
def satI64 (x : ℚ) : ℤ := max I64_MIN (min I64_MAX (qtrunc x))

/-- Rust `as i32` cast from a float: truncate toward zero, then saturate
at the `i32` bounds. -/
def satI32 (x : ℚ) : ℤ := max I32_MIN (min I32_MAX (qtrunc x))

/-- Two's-complement wrap-around of `i64` arithmetic (release-mode Rust
overflow semantics). -/
def wrap64 (x : ℤ) : ℤ := (x + 2 ^ 63) % 2 ^ 64 - 2 ^ 63

/-- The `time::Duration` value type, exposed through its
`whole_seconds` (`i64`) and `subsec_nanoseconds` (`i32`) accessors. -/
structure Duration where
  seconds : ℤ
  nanoseconds : ℤ
deriving DecidableEq

/-- Well-formedness of a `time::Duration`: components in machine range,
sub-second part below one second in magnitude, and the two components
agreeing in sign (the invariant maintained by the `time` crate). -/
def Duration.wf (d : Duration) : Prop :=
  I64_MIN ≤ d.seconds ∧ d.seconds ≤ I64_MAX ∧
  -NANOS_PER_SECOND < d.nanoseconds ∧ d.nanoseconds < NANOS_PER_SECOND ∧
  ((0 ≤ d.seconds ∧ 0 ≤ d.nanoseconds) ∨ (d.seconds ≤ 0 ∧ d.nanoseconds ≤ 0))

/-- Total nanosecond count of a `Duration`, used to compare durations
(the `time` crate orders durations by the elapsed time they denote). -/
def Duration.toNanos (d : Duration) : ℤ :=
  d.seconds * NANOS_PER_SECOND + d.nanoseconds

/-- `time::Duration::new(seconds, nanoseconds)`: carries whole seconds out
of the nanosecond argument with truncating division, then normalises the
pair so both components agree in sign.  The `checked_add ... expect`
overflow panic is modelled by `none`. -/
def Duration.new (secs nanos : ℤ) : Option Duration :=
  let s := secs + nanos.tdiv NANOS_PER_SECOND
  if s < I64_MIN ∨ I64_MAX < s then none
  else
    let n := nanos.tmod NANOS_PER_SECOND
    if 0 < s ∧ n < 0 then some ⟨s - 1, n + NANOS_PER_SECOND⟩
    else if s < 0 ∧ 0 < n then some ⟨s + 1, n - NANOS_PER_SECOND⟩
    else some ⟨s, n⟩

/-- The `iso8601_duration::Duration` component record: six numeric fields
(`f32` in the source, modelled as exact rationals). -/
structure IsoDuration where
  year : ℚ
  month : ℚ
  day : ℚ
  hour : ℚ
  minute : ℚ
  second : ℚ
deriving DecidableEq

/-- The encoder (`serialize` in `src/lib.rs`), up to the delegated string
printing: decompose `whole_seconds` by truncating division/remainder into
days, hours and minutes, and fold the nanoseconds into the seconds field.
This version idealises the `f32` narrowing of the component fields as
exact; `serializeF32` below is the refinement that applies the real
round-to-nearest-even `f32`/`f64` narrowing at every cast of the source. -/
def serialize (d : Duration) : IsoDuration :=
  let seconds0 := d.seconds
  let nanoseconds := d.nanoseconds
  let days := seconds0.tdiv SECONDS_PER_DAY
  let seconds1 := seconds0.tmod SECONDS_PER_DAY
  let hours := seconds1.tdiv SECONDS_PER_HOUR
  let seconds2 := seconds1.tmod SECONDS_PER_HOUR
  let minutes := seconds2.tdiv SECONDS_PER_MINUTE
  let seconds3 := seconds2.tmod SECONDS_PER_MINUTE
  { year := 0
    month := 0
    day := (days : ℚ)
    hour := (hours : ℚ)
    minute := (minutes : ℚ)
    second := (seconds3 : ℚ) + (nanoseconds : ℚ) / (NANOS_PER_SECOND : ℚ) }

/-- The encoder with the floating-point narrowing modelled faithfully:
`days as f32`, `hours as f32`, `minutes as f32` and `seconds as f32` round
to the nearest `f32`; `nanoseconds as f64 / 1e9` rounds the quotient to
`f64`, the `as f32` narrows it again, and the final `f32` addition rounds
the sum (`1e9` itself is exact in `f64`, and `i64`/`i32` values below
`2^53` are exact in `f64`). -/
def serializeF32 (d : Duration) : IsoDuration :=
  let seconds0 := d.seconds
  let nanoseconds := d.nanoseconds
  let days := seconds0.tdiv SECONDS_PER_DAY
  let seconds1 := seconds0.tmod SECONDS_PER_DAY
  let hours := seconds1.tdiv SECONDS_PER_HOUR
  let seconds2 := seconds1.tmod SECONDS_PER_HOUR
  let minutes := seconds2.tdiv SECONDS_PER_MINUTE
  let seconds3 := seconds2.tmod SECONDS_PER_MINUTE
  let seconds_f32 : ℚ :=
    roundF32 (roundF32 (seconds3 : ℚ) +
      roundF32 (roundF64 ((nanoseconds : ℚ) / (NANOS_PER_SECOND : ℚ))))
  { year := 0
    month := 0
    day := roundF32 (days : ℚ)
    hour := roundF32 (hours : ℚ)
    minute := roundF32 (minutes : ℚ)
    second := seconds_f32 }

/-- Outcome of the decoder: a duration, the explicit validation error
carrying its message, or an arithmetic-overflow panic inside
`time::Duration::new`. -/
inductive DeResult where
  | ok : Duration → DeResult
  | invalid : String → DeResult
  | overflow : DeResult
deriving DecidableEq

/-- The fixed validation error message of the decoder. -/
def errMsg : String := "Duration::year and Duration::month must be zero"

/-- The decoder (`deserialize` in `src/lib.rs`), after the delegated string
parsing: reject strictly positive year/month fields, gather the fractional
parts of the four time fields into a seconds carry, accumulate the whole
seconds in (wrapping) `i64` arithmetic, and rebuild the nanosecond
remainder from the carry fraction. -/
def deserialize (r : IsoDuration) : DeResult :=
  if 0 < r.year ∨ 0 < r.month then .invalid errMsg
  else
    let seconds_fract : ℚ :=
      qfract r.day * (SECONDS_PER_DAY : ℚ) +
      qfract r.hour * (SECONDS_PER_HOUR : ℚ) +
      qfract r.minute * (SECONDS_PER_MINUTE : ℚ) +
      qfract r.second
    let p1 := wrap64 (satI64 r.day * SECONDS_PER_DAY)
    let p2 := wrap64 (satI64 r.hour * SECONDS_PER_HOUR)
    let p3 := wrap64 (satI64 r.minute * SECONDS_PER_MINUTE)
    let seconds :=
      wrap64 (wrap64 (wrap64 (wrap64 (p1 + p2) + p3) + satI64 r.second) +
        satI64 seconds_fract)
    let nanoseconds := satI32 (qfract seconds_fract * (NANOS_PER_SECOND : ℚ))
    match Duration.new seconds nanoseconds with
    | some d => .ok d
    | none => .overflow

/-! ## Helper lemmas about truncating division and remainder -/

theorem tmod_neg_left (a b : ℤ) : (-a).tmod b = -(a.tmod b) := by
  rw [Int.tmod_def, Int.tmod_def, Int.neg_tdiv]
  ring

theorem tmod_nonpos_of_nonpos {a : ℤ} (b : ℤ) (h : a ≤ 0) : a.tmod b ≤ 0 := by
  have h2 : (0 : ℤ) ≤ -a := by omega
  have h3 := Int.tmod_nonneg b h2
  rw [tmod_neg_left] at h3
  omega

theorem neg_lt_tmod (a : ℤ) {b : ℤ} (hb : 0 < b) : -b < a.tmod b := by
  rcases le_or_lt 0 a with h | h
  · have := Int.tmod_nonneg b h
    omega
  · have h2 : (0 : ℤ) ≤ -a := by omega
    have h3 := Int.tmod_lt_of_pos (-a) hb
    rw [tmod_neg_left] at h3
    omega

theorem tmod_tmod_nat (k m n : ℕ) (h : n ∣ m) :
    (((k : ℤ).tmod m).tmod n) = (k : ℤ).tmod n := by
  rw [← Int.ofNat_tmod k m, ← Int.ofNat_tmod (k % m) n, ← Int.ofNat_tmod k n,
    Nat.mod_mod_of_dvd k h]

theorem tmod_tmod_of_dvd (a : ℤ) (m n : ℕ) (h : n ∣ m) :
    ((a.tmod m).tmod n) = a.tmod n := by
  rcases Int.natAbs_eq a with ha | ha <;> rw [ha]
  · exact tmod_tmod_nat _ m n h
  · rw [tmod_neg_left, tmod_neg_left, tmod_tmod_nat _ m n h, ← tmod_neg_left]

theorem tmod_86400_3600 (a : ℤ) : (a.tmod 86400).tmod 3600 = a.tmod 3600 := by
  have h := tmod_tmod_of_dvd a 86400 3600 (by norm_num)
  push_cast at h
  exact h

theorem tmod_3600_60 (a : ℤ) : (a.tmod 3600).tmod 60 = a.tmod 60 := by
  have h := tmod_tmod_of_dvd a 3600 60 (by norm_num)
  push_cast at h
  exact h

theorem natAbs_tdiv_le (a b : ℤ) : (a.tdiv b).natAbs ≤ a.natAbs := by
  rw [Int.natAbs_tdiv]
  exact Nat.div_le_self _ _

theorem tdiv_eq_zero_of_abs_lt {a b : ℤ} (h1 : -b < a) (h2 : a < b) : a.tdiv b = 0 := by
  rcases le_or_lt 0 a with h | h
  · exact Int.tdiv_eq_zero_of_lt h h2
  · have h3 : (0 : ℤ) ≤ -a := by omega
    have h4 := Int.tdiv_eq_zero_of_lt h3 (by omega : -a < b)
    have h5 := Int.neg_tdiv a b
    omega

theorem tmod_eq_self_of_abs_lt {a b : ℤ} (h1 : -b < a) (h2 : a < b) : a.tmod b = a := by
  rw [Int.tmod_def, tdiv_eq_zero_of_abs_lt h1 h2]
  ring

/-! ## Helper lemmas about rational truncation -/

theorem qtrunc_of_nonneg {x : ℚ} (h : 0 ≤ x) : qtrunc x = ⌊x⌋ := by
  rw [qtrunc, Rat.floor_def]
  exact Int.tdiv_eq_ediv (Rat.num_nonneg.mpr h) (Int.ofNat_nonneg _)

theorem qtrunc_neg (x : ℚ) : qtrunc (-x) = -(qtrunc x) := by
  rw [qtrunc, qtrunc, Rat.num_neg_eq_neg_num, Rat.den_neg_eq_den, Int.neg_tdiv]

theorem qtrunc_of_nonpos {x : ℚ} (h : x ≤ 0) : qtrunc x = ⌈x⌉ := by
  have h2 : (0 : ℚ) ≤ -x := neg_nonneg.mpr h
  have h3 := qtrunc_of_nonneg h2
  rw [qtrunc_neg, Int.floor_neg] at h3
  omega

theorem qtrunc_intCast (n : ℤ) : qtrunc (n : ℚ) = n := by
  rcases le_or_lt 0 n with h | h
  · rw [qtrunc_of_nonneg (by exact_mod_cast h), Int.floor_intCast]
  · rw [qtrunc_of_nonpos (by exact_mod_cast h.le), Int.ceil_intCast]

theorem qfract_intCast (n : ℤ) : qfract (n : ℚ) = 0 := by
  rw [qfract, qtrunc_intCast, sub_self]

theorem qtrunc_int_add_nonneg {m : ℤ} {f : ℚ} (hm : 0 ≤ m) (hf : 0 ≤ f) (hf1 : f < 1) :
    qtrunc ((m : ℚ) + f) = m := by
  have hm0 : (0 : ℚ) ≤ (m : ℚ) := by exact_mod_cast hm
  rw [qtrunc_of_nonneg (by linarith), add_comm, Int.floor_add_int,
    Int.floor_eq_zero_iff.mpr ⟨hf, hf1⟩, zero_add]

theorem qtrunc_int_add_nonpos {m : ℤ} {f : ℚ} (hm : m ≤ 0) (hf : f ≤ 0) (hf1 : -1 < f) :
    qtrunc ((m : ℚ) + f) = m := by
  have hm0 : (m : ℚ) ≤ 0 := by exact_mod_cast hm
  rcases le_or_lt 0 ((m : ℚ) + f) with h | h
  · have hmz : (m : ℚ) = 0 := by linarith
    have hfz : f = 0 := by linarith
    have hmz2 : m = 0 := by exact_mod_cast hmz
    rw [hmz, hfz, add_zero, qtrunc_of_nonneg le_rfl, Int.floor_zero, hmz2]
  · rw [qtrunc_of_nonpos h.le, add_comm, Int.ceil_add_int,
      Int.ceil_eq_zero_iff.mpr ⟨hf1, hf⟩, zero_add]

theorem qfract_int_add_nonneg {m : ℤ} {f : ℚ} (hm : 0 ≤ m) (hf : 0 ≤ f) (hf1 : f < 1) :
    qfract ((m : ℚ) + f) = f := by
  rw [qfract, qtrunc_int_add_nonneg hm hf hf1]
  ring

theorem qfract_int_add_nonpos {m : ℤ} {f : ℚ} (hm : m ≤ 0) (hf : f ≤ 0) (hf1 : -1 < f) :
    qfract ((m : ℚ) + f) = f := by
  rw [qfract, qtrunc_int_add_nonpos hm hf hf1]
  ring

theorem qfract_lt_one (x : ℚ) : qfract x < 1 := by
  rcases le_or_lt 0 x with h | h
  · rw [qfract, qtrunc_of_nonneg h]
    have := Int.lt_floor_add_one x
    linarith
  · rw [qfract, qtrunc_of_nonpos h.le]
    have := Int.le_ceil x
    linarith

theorem neg_one_lt_qfract (x : ℚ) : -1 < qfract x := by
  rcases le_or_lt 0 x with h | h
  · rw [qfract, qtrunc_of_nonneg h]
    have := Int.floor_le x
    linarith
  · rw [qfract, qtrunc_of_nonpos h.le]
    have := Int.ceil_lt_add_one x
    linarith

theorem qfract_nonneg_of_nonneg {x : ℚ} (h : 0 ≤ x) : 0 ≤ qfract x := by
  rw [qfract, qtrunc_of_nonneg h]
  have := Int.floor_le x
  linarith

theorem qfract_nonpos_of_nonpos {x : ℚ} (h : x ≤ 0) : qfract x ≤ 0 := by
  rw [qfract, qtrunc_of_nonpos h]
  have := Int.le_ceil x
  linarith

theorem qtrunc_bounds {x : ℚ} {c : ℤ} (h1 : -(c : ℚ) < x) (h2 : x < (c : ℚ)) :
    -c < qtrunc x ∧ qtrunc x < c := by
  have hc0 : (0 : ℤ) < c := by
    by_contra hcon
    push_neg at hcon
    have hcq : (c : ℚ) ≤ 0 := by exact_mod_cast hcon
    linarith
  rcases le_or_lt 0 x with h | h
  · rw [qtrunc_of_nonneg h]
    constructor
    · have h3 : (0 : ℤ) ≤ ⌊x⌋ := Int.floor_nonneg.mpr h
      omega
    · exact Int.floor_lt.mpr h2
  · rw [qtrunc_of_nonpos h.le]
    constructor
    · exact Int.lt_ceil.mpr (by push_cast; linarith)
    · have h3 : ⌈x⌉ ≤ 0 := Int.ceil_le.mpr (by push_cast; linarith)
      omega

/-! ## Helper lemmas about saturation, wrapping and `Duration.new` -/

theorem satI64_eq {x : ℚ} (h1 : I64_MIN ≤ qtrunc x) (h2 : qtrunc x ≤ I64_MAX) :
    satI64 x = qtrunc x := by
  rw [satI64, min_eq_right h2, max_eq_right h1]

theorem satI32_eq {x : ℚ} (h1 : I32_MIN ≤ qtrunc x) (h2 : qtrunc x ≤ I32_MAX) :
    satI32 x = qtrunc x := by
  rw [satI32, min_eq_right h2, max_eq_right h1]

theorem satI64_intCast {n : ℤ} (h1 : I64_MIN ≤ n) (h2 : n ≤ I64_MAX) :
    satI64 (n : ℚ) = n := by
  rw [satI64, qtrunc_intCast, min_eq_right h2, max_eq_right h1]

theorem wrap64_bounds (x : ℤ) : I64_MIN ≤ wrap64 x ∧ wrap64 x ≤ I64_MAX := by
  rw [wrap64, I64_MIN, I64_MAX]
  omega

theorem wrap64_eq_self {x : ℤ} (h1 : I64_MIN ≤ x) (h2 : x ≤ I64_MAX) : wrap64 x = x := by
  rw [I64_MIN] at h1
  rw [I64_MAX] at h2
  rw [wrap64]
  omega

theorem new_eq_some_self {s n : ℤ} (hs1 : I64_MIN ≤ s) (hs2 : s ≤ I64_MAX)
    (hn1 : -NANOS_PER_SECOND < n) (hn2 : n < NANOS_PER_SECOND)
    (hsign : (0 ≤ s ∧ 0 ≤ n) ∨ (s ≤ 0 ∧ n ≤ 0)) :
    Duration.new s n = some ⟨s, n⟩ := by
  have hdiv : n.tdiv NANOS_PER_SECOND = 0 := tdiv_eq_zero_of_abs_lt hn1 hn2
  have hmod : n.tmod NANOS_PER_SECOND = n := tmod_eq_self_of_abs_lt hn1 hn2
  rw [Duration.new]
  simp only [hdiv, add_zero, hmod]
  rw [if_neg (by omega)]
  rcases hsign with ⟨h1, h2⟩ | ⟨h1, h2⟩
  · rw [if_neg (by omega), if_neg (by omega)]
  · rw [if_neg (by omega), if_neg (by omega)]

theorem new_isSome {s n : ℤ} (hs1 : I64_MIN ≤ s) (hs2 : s ≤ I64_MAX)
    (hn1 : -NANOS_PER_SECOND < n) (hn2 : n < NANOS_PER_SECOND) :
    ∃ d, Duration.new s n = some d := by
  have hdiv : n.tdiv NANOS_PER_SECOND = 0 := tdiv_eq_zero_of_abs_lt hn1 hn2
  rw [Duration.new]
  simp only [hdiv, add_zero]
  rw [if_neg (by omega)]
  split_ifs <;> exact ⟨_, rfl⟩

theorem new_sign {s n : ℤ} {d : Duration} (h : Duration.new s n = some d) :
    (0 ≤ d.seconds ∧ 0 ≤ d.nanoseconds) ∨ (d.seconds ≤ 0 ∧ d.nanoseconds ≤ 0) := by
  simp only [Duration.new] at h
  have hNPS : (0 : ℤ) < NANOS_PER_SECOND := by rw [NANOS_PER_SECOND]; omega
  have hlo := neg_lt_tmod n hNPS
  have hhi := Int.tmod_lt_of_pos n hNPS
  split_ifs at h with h1 h2 h3
  · rw [Option.some_inj] at h
    subst h
    simp only
    omega
  · rw [Option.some_inj] at h
    subst h
    simp only
    omega
  · rw [Option.some_inj] at h
    subst h
    simp only
    omega

/-- The nanosecond argument the decoder passes to `Duration::new` is the
truncation of a value strictly below one second in magnitude, hence in
`(-10^9, 10^9)` and untouched by the `i32` saturation. -/
theorem decoder_nanos_spec (F : ℚ) :
    satI32 (qfract F * (NANOS_PER_SECOND : ℚ)) =
      qtrunc (qfract F * (NANOS_PER_SECOND : ℚ)) ∧
    -NANOS_PER_SECOND < qtrunc (qfract F * (NANOS_PER_SECOND : ℚ)) ∧
    qtrunc (qfract F * (NANOS_PER_SECOND : ℚ)) < NANOS_PER_SECOND := by
  have hcq : (0 : ℚ) < (NANOS_PER_SECOND : ℚ) := by
    rw [NANOS_PER_SECOND]
    norm_num
  have hf1 := neg_one_lt_qfract F
  have hf2 := qfract_lt_one F
  have h1 : -((NANOS_PER_SECOND : ℤ) : ℚ) < qfract F * (NANOS_PER_SECOND : ℚ) := by
    nlinarith
  have h2 : qfract F * (NANOS_PER_SECOND : ℚ) < ((NANOS_PER_SECOND : ℤ) : ℚ) := by
    nlinarith
  have hb := qtrunc_bounds h1 h2
  have h3 := hb.1
  have h4 := hb.2
  have hN : NANOS_PER_SECOND = 1000000000 := rfl
  refine ⟨satI32_eq ?_ ?_, hb.1, hb.2⟩
  · rw [I32_MIN]
    omega
  · rw [I32_MAX]
    omega

theorem qtrunc_eq_zero {x : ℚ} (h1 : -1 < x) (h2 : x < 1) : qtrunc x = 0 := by
  rcases le_or_lt 0 x with h | h
  · rw [qtrunc_of_nonneg h, Int.floor_eq_zero_iff.mpr ⟨h, h2⟩]
  · rw [qtrunc_of_nonpos h.le, Int.ceil_eq_zero_iff.mpr ⟨h1, h.le⟩]

theorem satI32_intCast {n : ℤ} (h1 : I32_MIN ≤ n) (h2 : n ≤ I32_MAX) :
    satI32 (n : ℚ) = n := by
  rw [satI32, qtrunc_intCast, min_eq_right h2, max_eq_right h1]

/-! ## The exact round trip of the embedding

With float arithmetic modelled exactly, encoding a well-formed duration and
decoding the resulting component record recovers the duration exactly: the
encoder emits integral day/hour/minute fields, so the only fractional
contribution on decode is the sub-second part, which reproduces the
original nanosecond component. -/

theorem deserialize_serialize (d : Duration) (h : d.wf) :
    deserialize (serialize d) = DeResult.ok d := by
  obtain ⟨s, ns⟩ := d
  obtain ⟨hs1, hs2, hn1, hn2, hsign⟩ := h
  simp only at hs1 hs2 hn1 hn2 hsign
  have hNz : ((NANOS_PER_SECOND : ℤ) : ℚ) ≠ 0 := by
    rw [NANOS_PER_SECOND]; norm_num
  have hNpos : (0 : ℚ) < ((NANOS_PER_SECOND : ℤ) : ℚ) := by
    rw [NANOS_PER_SECOND]; norm_num
  have hNval : NANOS_PER_SECOND = 1000000000 := rfl
  have hser : serialize ⟨s, ns⟩ =
      ⟨0, 0, ((s.tdiv 86400 : ℤ) : ℚ), (((s.tmod 86400).tdiv 3600 : ℤ) : ℚ),
        ((((s.tmod 86400).tmod 3600).tdiv 60 : ℤ) : ℚ),
        ((((s.tmod 86400).tmod 3600).tmod 60 : ℤ) : ℚ) +
          (ns : ℚ) / ((NANOS_PER_SECOND : ℤ) : ℚ)⟩ := rfl
  rw [I64_MIN] at hs1
  rw [I64_MAX] at hs2
  have e1 := Int.tdiv_add_tmod s 86400
  have e2 := Int.tdiv_add_tmod (s.tmod 86400) 3600
  have e3 := Int.tdiv_add_tmod ((s.tmod 86400).tmod 3600) 60
  have b1a := neg_lt_tmod s (show (0 : ℤ) < 86400 by norm_num)
  have b1b := Int.tmod_lt_of_pos s (show (0 : ℤ) < 86400 by norm_num)
  have b2a := neg_lt_tmod (s.tmod 86400) (show (0 : ℤ) < 3600 by norm_num)
  have b2b := Int.tmod_lt_of_pos (s.tmod 86400) (show (0 : ℤ) < 3600 by norm_num)
  have b3a := neg_lt_tmod ((s.tmod 86400).tmod 3600) (show (0 : ℤ) < 60 by norm_num)
  have b3b := Int.tmod_lt_of_pos ((s.tmod 86400).tmod 3600)
    (show (0 : ℤ) < 60 by norm_num)
  have hf1 : (ns : ℚ) / ((NANOS_PER_SECOND : ℤ) : ℚ) < 1 := by
    rw [div_lt_one hNpos]
    exact_mod_cast hn2
  have hfm1 : (-1 : ℚ) < (ns : ℚ) / ((NANOS_PER_SECOND : ℤ) : ℚ) := by
    rw [lt_div_iff₀ hNpos]
    have : -((NANOS_PER_SECOND : ℤ) : ℚ) < (ns : ℚ) := by exact_mod_cast hn1
    linarith
  have hsignq : (0 ≤ s ∧ 0 ≤ (ns : ℚ) / ((NANOS_PER_SECOND : ℤ) : ℚ)) ∨
      (s ≤ 0 ∧ (ns : ℚ) / ((NANOS_PER_SECOND : ℤ) : ℚ) ≤ 0) := by
    rcases hsign with ⟨ha, hb⟩ | ⟨ha, hb⟩
    · exact Or.inl ⟨ha, div_nonneg (by exact_mod_cast hb) hNpos.le⟩
    · exact Or.inr ⟨ha, div_nonpos_of_nonpos_of_nonneg (by exact_mod_cast hb) hNpos.le⟩
  have hqtf : qtrunc (((((s.tmod 86400).tmod 3600).tmod 60 : ℤ) : ℚ) +
        (ns : ℚ) / ((NANOS_PER_SECOND : ℤ) : ℚ)) =
        ((s.tmod 86400).tmod 3600).tmod 60 ∧
      qfract (((((s.tmod 86400).tmod 3600).tmod 60 : ℤ) : ℚ) +
        (ns : ℚ) / ((NANOS_PER_SECOND : ℤ) : ℚ)) =
        (ns : ℚ) / ((NANOS_PER_SECOND : ℤ) : ℚ) := by
    rcases hsignq with ⟨ha, hb⟩ | ⟨ha, hb⟩
    · have hS1 : 0 ≤ s.tmod 86400 := Int.tmod_nonneg _ ha
      have hS2 : 0 ≤ (s.tmod 86400).tmod 3600 := Int.tmod_nonneg _ hS1
      have hS3 : 0 ≤ ((s.tmod 86400).tmod 3600).tmod 60 := Int.tmod_nonneg _ hS2
      exact ⟨qtrunc_int_add_nonneg hS3 hb hf1, qfract_int_add_nonneg hS3 hb hf1⟩
    · have hS1 : s.tmod 86400 ≤ 0 := tmod_nonpos_of_nonpos _ ha
      have hS2 : (s.tmod 86400).tmod 3600 ≤ 0 := tmod_nonpos_of_nonpos _ hS1
      have hS3 : ((s.tmod 86400).tmod 3600).tmod 60 ≤ 0 := tmod_nonpos_of_nonpos _ hS2
      exact ⟨qtrunc_int_add_nonpos hS3 hb hfm1, qfract_int_add_nonpos hS3 hb hfm1⟩
  have hsgn : (0 ≤ s ∧ 0 ≤ s.tmod 86400 ∧ 0 ≤ (s.tmod 86400).tmod 3600 ∧
        0 ≤ ((s.tmod 86400).tmod 3600).tmod 60) ∨
      (s ≤ 0 ∧ s.tmod 86400 ≤ 0 ∧ (s.tmod 86400).tmod 3600 ≤ 0 ∧
        ((s.tmod 86400).tmod 3600).tmod 60 ≤ 0) := by
    rcases hsign with ⟨ha, _⟩ | ⟨ha, _⟩
    · have hS1 : 0 ≤ s.tmod 86400 := Int.tmod_nonneg _ ha
      have hS2 : 0 ≤ (s.tmod 86400).tmod 3600 := Int.tmod_nonneg _ hS1
      exact Or.inl ⟨ha, hS1, hS2, Int.tmod_nonneg _ hS2⟩
    · have hS1 : s.tmod 86400 ≤ 0 := tmod_nonpos_of_nonpos _ ha
      have hS2 : (s.tmod 86400).tmod 3600 ≤ 0 := tmod_nonpos_of_nonpos _ hS1
      exact Or.inr ⟨ha, hS1, hS2, tmod_nonpos_of_nonpos _ hS2⟩
  rw [hser]
  simp only [deserialize, lt_self_iff_false, or_self, if_false, SECONDS_PER_DAY,
    SECONDS_PER_HOUR, SECONDS_PER_MINUTE, qfract_intCast, zero_mul, zero_add]
  rw [hqtf.2]
  have hsat1 : satI64 ((s.tdiv 86400 : ℤ) : ℚ) = s.tdiv 86400 :=
    satI64_intCast (by rw [I64_MIN]; omega) (by rw [I64_MAX]; omega)
  have hsat2 : satI64 (((s.tmod 86400).tdiv 3600 : ℤ) : ℚ) = (s.tmod 86400).tdiv 3600 :=
    satI64_intCast (by rw [I64_MIN]; omega) (by rw [I64_MAX]; omega)
  have hsat3 : satI64 ((((s.tmod 86400).tmod 3600).tdiv 60 : ℤ) : ℚ) =
      ((s.tmod 86400).tmod 3600).tdiv 60 :=
    satI64_intCast (by rw [I64_MIN]; omega) (by rw [I64_MAX]; omega)
  have hsat4 : satI64 (((((s.tmod 86400).tmod 3600).tmod 60 : ℤ) : ℚ) +
      (ns : ℚ) / ((NANOS_PER_SECOND : ℤ) : ℚ)) = ((s.tmod 86400).tmod 3600).tmod 60 := by
    rw [satI64_eq (by rw [hqtf.1, I64_MIN]; omega) (by rw [hqtf.1, I64_MAX]; omega),
      hqtf.1]
  have hqf0 : qtrunc ((ns : ℚ) / ((NANOS_PER_SECOND : ℤ) : ℚ)) = 0 :=
    qtrunc_eq_zero hfm1 hf1
  have hsatf : satI64 ((ns : ℚ) / ((NANOS_PER_SECOND : ℤ) : ℚ)) = 0 := by
    rw [satI64_eq (by rw [hqf0, I64_MIN]; omega) (by rw [hqf0, I64_MAX]; omega), hqf0]
  rw [hsat1, hsat2, hsat3, hsat4, hsatf, add_zero]
  have w1 : wrap64 (s.tdiv 86400 * 86400) = s.tdiv 86400 * 86400 :=
    wrap64_eq_self (by rw [I64_MIN]; omega) (by rw [I64_MAX]; omega)
  have w2 : wrap64 ((s.tmod 86400).tdiv 3600 * 3600) = (s.tmod 86400).tdiv 3600 * 3600 :=
    wrap64_eq_self (by rw [I64_MIN]; omega) (by rw [I64_MAX]; omega)
  have w3 : wrap64 (((s.tmod 86400).tmod 3600).tdiv 60 * 60) =
      ((s.tmod 86400).tmod 3600).tdiv 60 * 60 :=
    wrap64_eq_self (by rw [I64_MIN]; omega) (by rw [I64_MAX]; omega)
  rw [w1, w2, w3]
  have w4 : wrap64 (s.tdiv 86400 * 86400 + (s.tmod 86400).tdiv 3600 * 3600) =
      s.tdiv 86400 * 86400 + (s.tmod 86400).tdiv 3600 * 3600 :=
    wrap64_eq_self (by rw [I64_MIN]; omega) (by rw [I64_MAX]; omega)
  rw [w4]
  have w5 : wrap64 (s.tdiv 86400 * 86400 + (s.tmod 86400).tdiv 3600 * 3600 +
      ((s.tmod 86400).tmod 3600).tdiv 60 * 60) =
      s.tdiv 86400 * 86400 + (s.tmod 86400).tdiv 3600 * 3600 +
      ((s.tmod 86400).tmod 3600).tdiv 60 * 60 :=
    wrap64_eq_self (by rw [I64_MIN]; omega) (by rw [I64_MAX]; omega)
  rw [w5]
  have hsum : s.tdiv 86400 * 86400 + (s.tmod 86400).tdiv 3600 * 3600 +
      ((s.tmod 86400).tmod 3600).tdiv 60 * 60 + ((s.tmod 86400).tmod 3600).tmod 60 =
      s := by omega
  rw [hsum]
  have w6 : wrap64 s = s := wrap64_eq_self (by rw [I64_MIN]; omega) (by rw [I64_MAX]; omega)
  rw [w6, w6]
  have hqff : qfract ((ns : ℚ) / ((NANOS_PER_SECOND : ℤ) : ℚ)) =
      (ns : ℚ) / ((NANOS_PER_SECOND : ℤ) : ℚ) := by
    rw [qfract, hqf0, Int.cast_zero, sub_zero]
  rw [hqff]
  have hfN : (ns : ℚ) / ((NANOS_PER_SECOND : ℤ) : ℚ) * ((NANOS_PER_SECOND : ℤ) : ℚ) =
      (ns : ℚ) := div_mul_cancel₀ _ hNz
  rw [hfN]
  have hsatn : satI32 ((ns : ℤ) : ℚ) = ns :=
    satI32_intCast (by rw [I32_MIN]; omega) (by rw [I32_MAX]; omega)
  rw [hsatn]
  rw [new_eq_some_self (by rw [I64_MIN]; omega) (by rw [I64_MAX]; omega) hn1 hn2 hsign]

/-! ## Totality of the decoder on accepted records -/

theorem satI64_range (x : ℚ) : I64_MIN ≤ satI64 x ∧ satI64 x ≤ I64_MAX := by
  rw [satI64]
  refine ⟨le_max_left _ _, max_le ?_ (min_le_left _ _)⟩
  rw [I64_MIN, I64_MAX]
  norm_num

theorem satI32_range (x : ℚ) : I32_MIN ≤ satI32 x ∧ satI32 x ≤ I32_MAX := by
  rw [satI32]
  refine ⟨le_max_left _ _, max_le ?_ (min_le_left _ _)⟩
  rw [I32_MIN, I32_MAX]
  norm_num

theorem exists_ok_match {s n : ℤ} (hs1 : I64_MIN ≤ s) (hs2 : s ≤ I64_MAX)
    (hn1 : -NANOS_PER_SECOND < n) (hn2 : n < NANOS_PER_SECOND) :
    ∃ d, (match Duration.new s n with
      | some d => DeResult.ok d
      | none => DeResult.overflow) = DeResult.ok d := by
  obtain ⟨d, hd⟩ := new_isSome hs1 hs2 hn1 hn2
  exact ⟨d, by rw [hd]⟩

/-- Every record that passes the year/month validation decodes to a
duration: the nanosecond argument is below one second in magnitude, the
(wrapped) seconds value is in `i64` range, so `Duration::new` cannot hit
its overflow panic. -/
theorem deserialize_ok_of_accepted (r : IsoDuration) (h1 : r.year ≤ 0) (h2 : r.month ≤ 0) :
    ∃ d, deserialize r = DeResult.ok d := by
  have hcond : ¬(0 < r.year ∨ 0 < r.month) := by
    push_neg
    exact ⟨h1, h2⟩
  simp only [deserialize]
  rw [if_neg hcond]
  have hns := decoder_nanos_spec (qfract r.day * ((SECONDS_PER_DAY : ℤ) : ℚ) +
    qfract r.hour * ((SECONDS_PER_HOUR : ℤ) : ℚ) +
    qfract r.minute * ((SECONDS_PER_MINUTE : ℤ) : ℚ) + qfract r.second)
  rw [hns.1]
  exact exists_ok_match (wrap64_bounds _).1 (wrap64_bounds _).2 hns.2.1 hns.2.2

theorem tdiv_nonpos_of_nonpos {a b : ℤ} (ha : a ≤ 0) (hb : 0 ≤ b) : a.tdiv b ≤ 0 := by
  have h1 : (0 : ℤ) ≤ (-a).tdiv b := Int.tdiv_nonneg (by omega) hb
  rw [Int.neg_tdiv] at h1
  omega

/-! ## Lemmas about the floating-point narrowing model -/

theorem natLog2Aux_eq (fuel : ℕ) : ∀ n : ℕ, n ≤ fuel → natLog2Aux fuel n = Nat.log2 n := by
  induction fuel with
  | zero =>
    intro n h
    have hn : n = 0 := by omega
    subst hn
    show 0 = Nat.log2 0
    rw [Nat.log2]
    norm_num
  | succ fuel ih =>
    intro n h
    show (if 2 ≤ n then natLog2Aux fuel (n / 2) + 1 else 0) = Nat.log2 n
    rw [Nat.log2]
    by_cases h2 : 2 ≤ n
    · rw [if_pos h2, if_pos h2, ih (n / 2) (by omega)]
    · rw [if_neg h2, if_neg h2]

theorem natLog2_eq (n : ℕ) : natLog2 n = Nat.log2 n := natLog2Aux_eq n n le_rfl

theorem qlog2_natCast {m : ℕ} (hm : m ≠ 0) : qlog2 (m : ℚ) = Nat.log2 m := by
  have h1 : ((m : ℚ)).num = (m : ℤ) := Rat.num_natCast m
  have h2 : ((m : ℚ)).den = 1 := Rat.den_natCast m
  simp only [qlog2, h1, h2, Int.natAbs_ofNat, natLog2_eq]
  have h3 : Nat.log2 1 = 0 := by
    rw [Nat.log2]
    norm_num
  rw [h3, Nat.cast_zero, sub_zero]
  have hc : (2 : ℚ) ^ ((Nat.log2 m : ℕ) : ℤ) ≤ (m : ℚ) := by
    rw [zpow_natCast]
    exact_mod_cast Nat.log2_self_le hm
  rw [if_pos hc]

theorem fround_zero (p : ℕ) : fround p 0 = 0 := by
  rw [fround, if_pos rfl]

theorem fround_neg (p : ℕ) (x : ℚ) : fround p (-x) = -(fround p x) := by
  by_cases hx : x = 0
  · subst hx
    rw [neg_zero, fround_zero, neg_zero]
  · have hx2 : -x ≠ 0 := by simpa using hx
    simp only [fround, if_neg hx2, if_neg hx, abs_neg]
    rcases lt_or_gt_of_ne hx with h | h
    · rw [if_pos (show (0 : ℚ) < -x by linarith), if_neg (show ¬(0 : ℚ) < x by linarith)]
      ring
    · rw [if_neg (show ¬(0 : ℚ) < -x by linarith), if_pos h]
      ring

theorem fround_natCast {p : ℕ} (hp : 1 ≤ p) {m : ℕ} (hm0 : m ≠ 0) (hm : m ≤ 2 ^ p) :
    fround p (m : ℚ) = m := by
  have hmq : (0 : ℚ) < (m : ℚ) := by exact_mod_cast Nat.pos_of_ne_zero hm0
  have hmqz : (m : ℚ) ≠ 0 := ne_of_gt hmq
  simp only [fround, if_neg hmqz]
  rw [abs_of_pos hmq, qlog2_natCast hm0, if_pos hmq]
  have hk1 : 2 ^ Nat.log2 m ≤ m := Nat.log2_self_le hm0
  have hkp : Nat.log2 m ≤ p := by
    by_contra hc
    push_neg at hc
    have h3 : 2 ^ p < 2 ^ Nat.log2 m := Nat.pow_lt_pow_right (by norm_num) hc
    exact absurd (lt_of_lt_of_le h3 (hk1.trans hm)) (lt_irrefl _)
  rcases lt_or_eq_of_le hkp with hlt | heq
  · have htz : ((p - 1 - Nat.log2 m : ℕ) : ℤ) = ((p : ℤ) - 1) - (Nat.log2 m : ℤ) := by
      omega
    have key : (m : ℚ) / (2 : ℚ) ^ ((Nat.log2 m : ℤ) - ((p : ℤ) - 1)) =
        ((m * 2 ^ (p - 1 - Nat.log2 m) : ℕ) : ℚ) := by
      rw [div_eq_mul_inv, ← zpow_neg]
      rw [show -((Nat.log2 m : ℤ) - ((p : ℤ) - 1)) = ((p - 1 - Nat.log2 m : ℕ) : ℤ) by
        omega]
      rw [zpow_natCast]
      push_cast
      ring
    rw [key]
    have hq : qtrunc ((m * 2 ^ (p - 1 - Nat.log2 m) : ℕ) : ℚ) =
        ((m * 2 ^ (p - 1 - Nat.log2 m) : ℕ) : ℤ) := by
      rw [show (((m * 2 ^ (p - 1 - Nat.log2 m) : ℕ)) : ℚ) =
        (((m * 2 ^ (p - 1 - Nat.log2 m) : ℕ) : ℤ) : ℚ) by push_cast; ring, qtrunc_intCast]
    rw [hq]
    have h5 : ((m * 2 ^ (p - 1 - Nat.log2 m) : ℕ) : ℚ) -
        ((((m * 2 ^ (p - 1 - Nat.log2 m) : ℕ) : ℤ)) : ℚ) = 0 := by
      push_cast
      ring
    rw [h5, if_pos (show (0 : ℚ) < 1 / 2 by norm_num)]
    have h6 : ((2 : ℚ)) ^ ((p - 1 - Nat.log2 m : ℕ)) *
        (2 : ℚ) ^ ((Nat.log2 m : ℤ) - ((p : ℤ) - 1)) = 1 := by
      rw [← zpow_natCast (2 : ℚ) (p - 1 - Nat.log2 m),
        ← zpow_add₀ (show (2 : ℚ) ≠ 0 by norm_num)]
      rw [show ((p - 1 - Nat.log2 m : ℕ) : ℤ) + ((Nat.log2 m : ℤ) - ((p : ℤ) - 1)) = 0 by
        omega]
      rw [zpow_zero]
    push_cast
    rw [one_mul, mul_assoc, h6, mul_one]
  · have hm2 : m = 2 ^ p := by
      refine le_antisymm hm ?_
      rw [heq] at hk1
      exact hk1
    have he : (Nat.log2 m : ℤ) - ((p : ℤ) - 1) = 1 := by omega
    rw [he]
    have key : (m : ℚ) / (2 : ℚ) ^ (1 : ℤ) = ((2 ^ (p - 1) : ℕ) : ℚ) := by
      rw [hm2, zpow_one]
      push_cast
      rw [show p = (p - 1) + 1 by omega, pow_succ]
      rw [mul_div_assoc]
      norm_num
    rw [key]
    have hq : qtrunc ((2 ^ (p - 1) : ℕ) : ℚ) = ((2 ^ (p - 1) : ℕ) : ℤ) := by
      rw [show (((2 ^ (p - 1) : ℕ)) : ℚ) = (((2 ^ (p - 1) : ℕ) : ℤ) : ℚ) by push_cast; ring,
        qtrunc_intCast]
    rw [hq]
    have h5 : ((2 ^ (p - 1) : ℕ) : ℚ) - ((((2 ^ (p - 1) : ℕ) : ℤ)) : ℚ) = 0 := by
      push_cast
      ring
    rw [h5, if_pos (show (0 : ℚ) < 1 / 2 by norm_num)]
    rw [hm2]
    push_cast
    rw [one_mul, zpow_one]
    rw [show ((2 : ℚ)) ^ (p - 1) * 2 = 2 ^ p by rw [← pow_succ]; congr 1; omega]

theorem fround_intCast {p : ℕ} (hp : 1 ≤ p) {n : ℤ} (hn : n.natAbs ≤ 2 ^ p) :
    fround p (n : ℚ) = n := by
  rcases eq_or_ne n 0 with rfl | h0
  · rw [Int.cast_zero, fround_zero]
  · rcases Int.natAbs_eq n with h | h
    · rw [h, Int.cast_natCast]
      exact fround_natCast hp (Int.natAbs_ne_zero.mpr h0) hn
    · rw [h, Int.cast_neg, Int.cast_natCast, fround_neg,
        fround_natCast hp (Int.natAbs_ne_zero.mpr h0) hn]

/-- On a non-negative whole-second duration with at most `2^24` days every
component the encoder narrows to `f32` is an integer of magnitude at most
`2^24`, so the narrowing is exact and the two encoders agree. -/
theorem serializeF32_eq_of_small (s : ℤ) (h0 : 0 ≤ s) (h1 : s ≤ 2 ^ 24 * 86400) :
    serializeF32 ⟨s, 0⟩ = serialize ⟨s, 0⟩ := by
  have e1 : (s.tdiv 86400).natAbs = s.natAbs / 86400 := by
    rw [Int.natAbs_tdiv]
    rfl
  have b1a := neg_lt_tmod s (show (0 : ℤ) < 86400 by norm_num)
  have b1b := Int.tmod_lt_of_pos s (show (0 : ℤ) < 86400 by norm_num)
  have e2 : ((s.tmod 86400).tdiv 3600).natAbs = (s.tmod 86400).natAbs / 3600 := by
    rw [Int.natAbs_tdiv]
    rfl
  have b2a := neg_lt_tmod (s.tmod 86400) (show (0 : ℤ) < 3600 by norm_num)
  have b2b := Int.tmod_lt_of_pos (s.tmod 86400) (show (0 : ℤ) < 3600 by norm_num)
  have e3 : (((s.tmod 86400).tmod 3600).tdiv 60).natAbs =
      ((s.tmod 86400).tmod 3600).natAbs / 60 := by
    rw [Int.natAbs_tdiv]
    rfl
  have b3a := neg_lt_tmod ((s.tmod 86400).tmod 3600) (show (0 : ℤ) < 60 by norm_num)
  have b3b := Int.tmod_lt_of_pos ((s.tmod 86400).tmod 3600) (show (0 : ℤ) < 60 by norm_num)
  have b4a := neg_lt_tmod (((s.tmod 86400).tmod 3600)) (show (0 : ℤ) < 60 by norm_num)
  have hday : (s.tdiv 86400).natAbs ≤ 2 ^ 24 := by omega
  have hhour : ((s.tmod 86400).tdiv 3600).natAbs ≤ 2 ^ 24 := by omega
  have hmin : (((s.tmod 86400).tmod 3600).tdiv 60).natAbs ≤ 2 ^ 24 := by omega
  have hs3 : ((((s.tmod 86400).tmod 3600).tmod 60)).natAbs ≤ 2 ^ 24 := by
    have c1 := neg_lt_tmod (((s.tmod 86400).tmod 3600)) (show (0 : ℤ) < 60 by norm_num)
    have c2 := Int.tmod_lt_of_pos (((s.tmod 86400).tmod 3600))
      (show (0 : ℤ) < 60 by norm_num)
    omega
  simp only [serializeF32, serialize, SECONDS_PER_DAY, SECONDS_PER_HOUR,
    SECONDS_PER_MINUTE, roundF32, roundF64, IsoDuration.mk.injEq]
  refine ⟨trivial, trivial, ?_, ?_, ?_, ?_⟩
  · exact fround_intCast (by norm_num) hday
  · exact fround_intCast (by norm_num) hhour
  · exact fround_intCast (by norm_num) hmin
  · have hz : (((0 : ℤ)) : ℚ) / ((NANOS_PER_SECOND : ℤ) : ℚ) = 0 := by
      norm_num
    rw [hz, fround_zero, fround_zero, add_zero, add_zero,
      fround_intCast (by norm_num) hs3, fround_intCast (by norm_num) hs3]

/-! ## The claims -/

attribute [local semireducible] Rat.mul Rat.add Rat.sub Rat.inv

/-- C1 (counterexample): the validation is `year > 0 || month > 0`, not a
non-zero test — the record parsed with `years = -1` (a non-zero years
field) is NOT rejected; the decoder returns the zero duration for it,
contradicting the claim that any non-zero years field yields an error. -/
theorem c1_counterexample_negative_year_accepted :
    deserialize
        { year := -1, month := 0, day := 0, hour := 0, minute := 0, second := 0 } =
      DeResult.ok ⟨0, 0⟩ ∧ (-1 : ℚ) ≠ 0 :=
  ⟨by decide, by norm_num⟩

/-- C1 (amended): the decoder returns the fixed invalid-input error if and
only if the parsed record's years field is strictly positive or its months
field is strictly positive; in every other case (years and months at most
zero) it returns a Duration. -/
theorem c1_deserialize_error_iff (r : IsoDuration) :
    (deserialize r = DeResult.invalid errMsg ↔ 0 < r.year ∨ 0 < r.month) ∧
    (r.year ≤ 0 ∧ r.month ≤ 0 → ∃ d, deserialize r = DeResult.ok d) := by
  refine ⟨⟨?_, ?_⟩, ?_⟩
  · intro h
    by_contra hc
    push_neg at hc
    obtain ⟨d, hd⟩ := deserialize_ok_of_accepted r hc.1 hc.2
    rw [hd] at h
    exact absurd h (by simp)
  · intro hc
    simp only [deserialize]
    rw [if_pos hc]
  · intro h
    exact deserialize_ok_of_accepted r h.1 h.2

/-- C1 witness: a record with a strictly positive years field is rejected
with the fixed message. -/
theorem c1_witness :
    deserialize
        { year := 1, month := 0, day := 0, hour := 0, minute := 0, second := 0 } =
      DeResult.invalid errMsg :=
  (c1_deserialize_error_iff ⟨1, 0, 0, 0, 0, 0⟩).1.mpr (Or.inl (by norm_num))

/-- C2: for every duration with whole seconds `s` and nanoseconds `ns`, the
encoder produces the record with years 0, months 0, days `s / 86400`
(truncating), hours `(s mod 86400) / 3600`, minutes `(s mod 3600) / 60`,
and seconds `(s mod 60) + ns / 1e9`, all with truncating (sign-toward-zero)
division and remainder, the day/hour/minute quotients cast to float. -/
theorem c2_serialize_components (d : Duration) :
    serialize d =
      { year := 0
        month := 0
        day := ((d.seconds.tdiv 86400 : ℤ) : ℚ)
        hour := (((d.seconds.tmod 86400).tdiv 3600 : ℤ) : ℚ)
        minute := (((d.seconds.tmod 3600).tdiv 60 : ℤ) : ℚ)
        second := ((d.seconds.tmod 60 : ℤ) : ℚ) +
          (d.nanoseconds : ℚ) / (1000000000 : ℚ) } := by
  obtain ⟨s, ns⟩ := d
  have h1 := tmod_86400_3600 s
  have h2 := tmod_3600_60 s
  simp only [serialize, SECONDS_PER_DAY, SECONDS_PER_HOUR, SECONDS_PER_MINUTE,
    NANOS_PER_SECOND, IsoDuration.mk.injEq, h1, h2]
  norm_num

/-- C4 (counterexample): at the non-negative whole-second duration with
`s = 16777217 * 86400` the day count is `2^24 + 1`, which the `f32`
narrowing rounds (ties-to-even) to `16777216.0`; decoding the encoded
record loses a full day, so `decode(encode(d)) ≠ d` inside the claim's
domain. -/
theorem c4_counterexample_day_narrowing :
    deserialize (serializeF32 ⟨16777217 * 86400, 0⟩) =
      DeResult.ok ⟨16777216 * 86400, 0⟩ ∧
    (16777216 * 86400 : ℤ) ≠ 16777217 * 86400 := by
  constructor
  · set_option maxRecDepth 8000 in decide
  · decide

/-- C4 (amended): for every non-negative duration with a zero sub-second
remainder and at most `2^24` days (whole seconds at most `2^24 * 86400`,
the range in which every component of the record survives the `f32`
narrowing exactly), decoding the record produced by the
narrowing-faithful encoder yields the same duration exactly. -/
theorem c4_roundtrip_whole_seconds (s : ℤ) (h0 : 0 ≤ s) (h1 : s ≤ 2 ^ 24 * 86400) :
    deserialize (serializeF32 ⟨s, 0⟩) = DeResult.ok ⟨s, 0⟩ := by
  rw [serializeF32_eq_of_small s h0 h1]
  exact deserialize_serialize ⟨s, 0⟩
    ⟨show I64_MIN ≤ s by rw [I64_MIN]; omega,
     show s ≤ I64_MAX by rw [I64_MAX]; omega,
     show -NANOS_PER_SECOND < 0 by rw [NANOS_PER_SECOND]; omega,
     show (0 : ℤ) < NANOS_PER_SECOND by rw [NANOS_PER_SECOND]; omega,
     Or.inl ⟨h0, le_rfl⟩⟩

/-- C4 witness: a concrete whole-second duration round trips exactly
through the narrowing-faithful encoder. -/
theorem c4_witness :
    deserialize (serializeF32 ⟨200000, 0⟩) = DeResult.ok ⟨200000, 0⟩ :=
  c4_roundtrip_whole_seconds 200000 (by norm_num) (by norm_num)

/-- C5: every duration the decoder returns has whole-second and nanosecond
components that are both non-negative or both non-positive (the
normalisation inside `Duration::new` enforces it). -/
theorem c5_decoder_sign_agreement (r : IsoDuration) (d : Duration)
    (h : deserialize r = DeResult.ok d) :
    (0 ≤ d.seconds ∧ 0 ≤ d.nanoseconds) ∨ (d.seconds ≤ 0 ∧ d.nanoseconds ≤ 0) := by
  simp only [deserialize] at h
  by_cases hc : (0 : ℚ) < r.year ∨ (0 : ℚ) < r.month
  · rw [if_pos hc] at h
    exact absurd h (by simp)
  · rw [if_neg hc] at h
    split at h
    · rename_i d2 heq
      rw [DeResult.ok.injEq] at h
      subst h
      exact new_sign heq
    · simp at h

/-- C5 witness: sign agreement at a concrete decoded record. -/
theorem c5_witness :
    (0 ≤ (5 : ℤ) ∧ 0 ≤ (0 : ℤ)) ∨ ((5 : ℤ) ≤ 0 ∧ (0 : ℤ) ≤ 0) :=
  c5_decoder_sign_agreement ⟨0, 0, 0, 0, 0, 5⟩ ⟨5, 0⟩ (by decide)

/-- C6: decoding the record parsed from "PT10.5S" (all fields zero except
seconds = 10.5) succeeds, and the resulting duration lies strictly between
10 seconds and 11 seconds. -/
theorem c6_decode_ten_point_five :
    deserialize
        { year := 0, month := 0, day := 0, hour := 0, minute := 0,
          second := (21 : ℚ) / 2 } = DeResult.ok ⟨10, 500000000⟩ ∧
      Duration.toNanos ⟨10, 0⟩ < Duration.toNanos ⟨10, 500000000⟩ ∧
      Duration.toNanos ⟨10, 500000000⟩ < Duration.toNanos ⟨11, 0⟩ :=
  ⟨by decide, by decide, by decide⟩

/-- C7 (counterexample): two durations with non-zero sub-second components
on which the real `f32` narrowing breaks the claim.  At
`(16777217 * 86400 s, 0.5 s)` the day count `2^24 + 1` rounds to
`16777216.0`, so the round trip loses a full day: the whole-seconds values
differ and the error is a whole day, far above the claimed one-second
budget.  At `(0 s, 999999999 ns)` the seconds field `0.999999999` rounds
up to the `f32` value `1.0`, so the round trip returns one whole second:
the whole-seconds values differ even though every component is within the
exact day range. -/
theorem c7_counterexample_day_narrowing :
    deserialize (serializeF32 ⟨16777217 * 86400, 500000000⟩) =
      DeResult.ok ⟨16777216 * 86400, 500000000⟩ ∧
    (16777216 * 86400 : ℤ) ≠ 16777217 * 86400 ∧
    NANOS_PER_SECOND ≤ |Duration.toNanos ⟨16777216 * 86400, 500000000⟩ -
      Duration.toNanos ⟨16777217 * 86400, 500000000⟩| ∧
    deserialize (serializeF32 ⟨0, 999999999⟩) = DeResult.ok ⟨1, 0⟩ ∧
    (1 : ℤ) ≠ 0 := by
  refine ⟨?_, by decide, by decide, ?_, by decide⟩
  · set_option maxRecDepth 8000 in decide
  · set_option maxRecDepth 8000 in decide

/-- C7 (amended): for every well-formed duration with a non-zero
sub-second component whose encoded record survives the `f32` narrowing
exactly (the narrowing-faithful encoder agrees with the exact one),
decoding the encoding preserves the whole-seconds value and the total
error is below one second (the round trip is then in fact exact). -/
theorem c7_roundtrip_subsecond (d : Duration) (hwf : d.wf) (_hns : d.nanoseconds ≠ 0)
    (hexact : serializeF32 d = serialize d) :
    ∃ d2, deserialize (serializeF32 d) = DeResult.ok d2 ∧ d2.seconds = d.seconds ∧
      |d2.toNanos - d.toNanos| < NANOS_PER_SECOND := by
  rw [hexact]
  refine ⟨d, deserialize_serialize d hwf, rfl, ?_⟩
  rw [sub_self, abs_zero, NANOS_PER_SECOND]
  norm_num

/-- C7 witness: the 10.5-second duration is narrowed losslessly and round
trips with its whole-second part intact and sub-second error below one
second. -/
theorem c7_witness :
    ∃ d2, deserialize (serializeF32 ⟨10, 500000000⟩) = DeResult.ok d2 ∧
      d2.seconds = (10 : ℤ) ∧
      |d2.toNanos - Duration.toNanos ⟨10, 500000000⟩| < NANOS_PER_SECOND :=
  c7_roundtrip_subsecond ⟨10, 500000000⟩
    ⟨by decide, by decide, by decide, by decide, Or.inl ⟨by decide, by decide⟩⟩
    (by decide)
    (by set_option maxRecDepth 8000 in decide)

/-- C8: the encoder uses sign-toward-zero division and remainder, so a
negative duration produces a record whose day, hour, minute and seconds
fields are all non-positive. -/
theorem c8_serialize_negative (d : Duration) (hwf : d.wf) (hneg : d.seconds < 0) :
    (serialize d).day ≤ 0 ∧ (serialize d).hour ≤ 0 ∧ (serialize d).minute ≤ 0 ∧
      (serialize d).second ≤ 0 := by
  obtain ⟨s, ns⟩ := d
  obtain ⟨-, -, -, -, hsign⟩ := hwf
  have hs0 : s < 0 := hneg
  have hns0 : ns ≤ 0 := by
    rcases hsign with ⟨ha, hb⟩ | ⟨ha, hb⟩
    · have ha2 : 0 ≤ s := ha
      omega
    · exact hb
  have h1 : s.tmod 86400 ≤ 0 := tmod_nonpos_of_nonpos _ (by omega)
  have h2 : (s.tmod 86400).tmod 3600 ≤ 0 := tmod_nonpos_of_nonpos _ h1
  have h3 : ((s.tmod 86400).tmod 3600).tmod 60 ≤ 0 := tmod_nonpos_of_nonpos _ h2
  refine ⟨?_, ?_, ?_, ?_⟩
  · show ((s.tdiv 86400 : ℤ) : ℚ) ≤ 0
    have := tdiv_nonpos_of_nonpos (show s ≤ 0 by omega) (show (0 : ℤ) ≤ 86400 by norm_num)
    exact_mod_cast this
  · show (((s.tmod 86400).tdiv 3600 : ℤ) : ℚ) ≤ 0
    have := tdiv_nonpos_of_nonpos h1 (show (0 : ℤ) ≤ 3600 by norm_num)
    exact_mod_cast this
  · show ((((s.tmod 86400).tmod 3600).tdiv 60 : ℤ) : ℚ) ≤ 0
    have := tdiv_nonpos_of_nonpos h2 (show (0 : ℤ) ≤ 60 by norm_num)
    exact_mod_cast this
  · show ((((s.tmod 86400).tmod 3600).tmod 60 : ℤ) : ℚ) +
        (ns : ℚ) / ((NANOS_PER_SECOND : ℤ) : ℚ) ≤ 0
    have hq1 : ((((s.tmod 86400).tmod 3600).tmod 60 : ℤ) : ℚ) ≤ 0 := by exact_mod_cast h3
    have hq2 : (ns : ℚ) / ((NANOS_PER_SECOND : ℤ) : ℚ) ≤ 0 :=
      div_nonpos_of_nonpos_of_nonneg (by exact_mod_cast hns0)
        (by rw [NANOS_PER_SECOND]; norm_num)
    linarith

/-- C8 witness: a concrete negative duration encodes with all components
non-positive. -/
theorem c8_witness :
    (serialize ⟨-90061, -500000000⟩).day ≤ 0 ∧
      (serialize ⟨-90061, -500000000⟩).hour ≤ 0 ∧
      (serialize ⟨-90061, -500000000⟩).minute ≤ 0 ∧
      (serialize ⟨-90061, -500000000⟩).second ≤ 0 :=
  c8_serialize_negative ⟨-90061, -500000000⟩
    ⟨by decide, by decide, by decide, by decide, Or.inr ⟨by decide, by decide⟩⟩
    (by decide)

/-- C9: the decoder is total on every record that passes validation — the
float-to-integer narrowings saturate at the `i64`/`i32` bounds, the
nanosecond argument stays below one second in magnitude, and (with the
release-mode wrapping semantics of the interior `i64` arithmetic) the
`Duration::new` overflow panic is unreachable, so a duration is always
returned. -/
theorem c9_decoder_total (r : IsoDuration) (x y : ℚ)
    (h1 : r.year ≤ 0) (h2 : r.month ≤ 0) :
    (∃ d, deserialize r = DeResult.ok d) ∧
      I64_MIN ≤ satI64 x ∧ satI64 x ≤ I64_MAX ∧
      I32_MIN ≤ satI32 y ∧ satI32 y ≤ I32_MAX :=
  ⟨deserialize_ok_of_accepted r h1 h2, (satI64_range x).1, (satI64_range x).2,
    (satI32_range y).1, (satI32_range y).2⟩

/-- C9 witness: a record with an astronomically large day field still
decodes, and the saturating casts stay in range on huge inputs. -/
theorem c9_witness :
    (∃ d, deserialize ⟨0, 0, (10 : ℚ) ^ 20, 0, 0, 0⟩ = DeResult.ok d) ∧
      I64_MIN ≤ satI64 ((10 : ℚ) ^ 30) ∧ satI64 ((10 : ℚ) ^ 30) ≤ I64_MAX ∧
      I32_MIN ≤ satI32 (-(10 : ℚ) ^ 30) ∧ satI32 (-(10 : ℚ) ^ 30) ≤ I32_MAX :=
  c9_decoder_total ⟨0, 0, (10 : ℚ) ^ 20, 0, 0, 0⟩ ((10 : ℚ) ^ 30) (-(10 : ℚ) ^ 30)
    (by norm_num) (by norm_num)

/-- C10: a record whose years and months fields are at most zero — in
particular strictly negative — passes the validation (which only tests
strictly-greater-than zero) and a duration is returned. -/
theorem c10_negative_year_month_accepted (r : IsoDuration)
    (h1 : r.year ≤ 0) (h2 : r.month ≤ 0) :
    ∃ d, deserialize r = DeResult.ok d :=
  deserialize_ok_of_accepted r h1 h2

/-- C10 witness: a record with strictly negative years and months fields
decodes successfully. -/
theorem c10_witness :
    ∃ d, deserialize ⟨-1, -2, 1, 0, 0, 5⟩ = DeResult.ok d :=
  c10_negative_year_month_accepted ⟨-1, -2, 1, 0, 0, 5⟩ (by norm_num) (by norm_num)

end Iso8601DurationSerde
